import Mathlib

/-!
# Verification of critiquebrainz/data/backup/manage.py

Shallow embedding of the backup-management commands of the repository
(dump_db, dump_json, export) and of their helpers (slugify, create_path),
together with theorems settling the specification claims about the
retention/rotation policy, slug normalization, path creation, error
propagation and archive construction.

Strings are modelled as Lean `String`/`List Char`, modification times as
`Nat`, and the filesystem as explicit lists of entries.
-/

/-! ## Character classes used by the Python regexes and string methods -/

/-- Python 2 `\w` on a byte string without `re.UNICODE`: `[a-zA-Z0-9_]`. -/
def isWordByte (c : Char) : Bool :=
  (65 ≤ c.toNat && c.toNat ≤ 90) || (97 ≤ c.toNat && c.toNat ≤ 122) ||
    (48 ≤ c.toNat && c.toNat ≤ 57) || c == '_'

/-- Python 2 `\s` and `str.strip()` whitespace: space, tab, newline,
carriage return, vertical tab, form feed. -/
def isPySpace (c : Char) : Bool :=
  c == ' ' || c == '\t' || c == '\n' || c == '\r' || c == '\x0b' || c == '\x0c'

/-- Characters kept by `re.sub('[^\w\s-]', '', value)` in `slugify`. -/
def keepChar (c : Char) : Bool := isWordByte c || isPySpace c || c == '-'

/-- A character of the class `[-\s]` of `re.sub('[-\s]+', '-', value)`:
a hyphen or a whitespace character. -/
def isSep (c : Char) : Bool := c == '-' || isPySpace c

/-- ASCII lowercasing as performed by Python 2 `str.lower()`; the string
fed to it in `slugify` is pure ASCII, having been encoded to ASCII with
errors ignored, so only `A`-`Z` are shifted. -/
def asciiLower (c : Char) : Char :=
  if 65 ≤ c.toNat && c.toNat ≤ 90 then Char.ofNat (c.toNat + 32) else c

/-- `value.strip()`: remove leading and trailing whitespace. -/
def pyStrip (l : List Char) : List Char :=
  ((l.dropWhile isPySpace).reverse.dropWhile isPySpace).reverse

/-- `re.sub('[-\s]+', '-', value)`: every maximal run of hyphens and
whitespace characters is replaced by one hyphen.  The boolean records
whether we are inside a run whose hyphen has already been emitted. -/
def collapseAux : Bool → List Char → List Char
  | _, [] => []
  | inRun, c :: rest =>
    if isSep c then
      if inRun then collapseAux true rest
      else '-' :: collapseAux true rest
    else c :: collapseAux false rest

def collapseSeps (l : List Char) : List Char := collapseAux false l

/-- `unicodedata.normalize('NFKD', value).encode('ascii', 'ignore')`.
NFKD is the identity on ASCII code points, and canonical reordering only
permutes adjacent combining marks (never an ASCII character), so the
result is the concatenation of a per-character ASCII residue.  The
parameter `residue` gives the ASCII characters surviving from one
non-ASCII character; ASCII characters survive unchanged. -/
def normalizeAscii (residue : Char → List Char) (l : List Char) : List Char :=
  l.flatMap fun c => if c.toNat < 128 then [c] else residue c

/-- `slugify(value)` from manage.py:
`value = unicodedata.normalize('NFKD', value).encode('ascii', 'ignore')`,
`value = re.sub('[^\w\s-]', '', value).strip().lower()`,
`return re.sub('[-\s]+', '-', value)`. -/
def slugify (residue : Char → List Char) (value : List Char) : List Char :=
  collapseSeps
    (List.map asciiLower (pyStrip ((normalizeAscii residue value).filter keepChar)))

/-- The character set actually produced by `slugify`: hyphen, underscore,
lowercase ASCII letters and digits. -/
def slugChar (c : Char) : Prop :=
  c = '-' ∨ c = '_' ∨ (97 ≤ c.toNat ∧ c.toNat ≤ 122) ∨ (48 ≤ c.toNat ∧ c.toNat ≤ 57)

instance (c : Char) : Decidable (slugChar c) := by
  unfold slugChar; infer_instance

/-! ## Lemmas about the slugify pipeline -/

theorem collapseAux_sep_true {d : Char} (rest : List Char) (hd : isSep d = true) :
    collapseAux true (d :: rest) = collapseAux true rest := by
  simp [collapseAux, hd]

theorem collapseAux_sep_false {d : Char} (rest : List Char) (hd : isSep d = true) :
    collapseAux false (d :: rest) = '-' :: collapseAux true rest := by
  simp [collapseAux, hd]

theorem collapseAux_nonsep {d : Char} (rest : List Char) (b : Bool)
    (hd : isSep d = false) :
    collapseAux b (d :: rest) = d :: collapseAux false rest := by
  cases b <;> simp [collapseAux, hd]

theorem mem_collapseAux (c : Char) (b : Bool) (l : List Char)
    (h : c ∈ collapseAux b l) : c = '-' ∨ (c ∈ l ∧ isSep c = false) := by
  induction l generalizing b with
  | nil => simp [collapseAux] at h
  | cons d rest ih =>
    by_cases hd : isSep d = true
    · cases b with
      | true =>
        rw [collapseAux_sep_true rest hd] at h
        rcases ih true h with h1 | ⟨h2, h3⟩
        · exact Or.inl h1
        · exact Or.inr ⟨List.mem_cons_of_mem d h2, h3⟩
      | false =>
        rw [collapseAux_sep_false rest hd] at h
        rcases List.mem_cons.mp h with h1 | h1
        · exact Or.inl h1
        · rcases ih true h1 with h2 | ⟨h2, h3⟩
          · exact Or.inl h2
          · exact Or.inr ⟨List.mem_cons_of_mem d h2, h3⟩
    · have hdf : isSep d = false := Bool.eq_false_iff.mpr hd
      rw [collapseAux_nonsep rest b hdf] at h
      rcases List.mem_cons.mp h with h1 | h1
      · subst h1
        exact Or.inr ⟨List.mem_cons_self c rest, hdf⟩
      · rcases ih false h1 with h2 | ⟨h2, h3⟩
        · exact Or.inl h2
        · exact Or.inr ⟨List.mem_cons_of_mem d h2, h3⟩

theorem collapseAux_true_head (l : List Char) :
    ∀ c cs, collapseAux true l = c :: cs → isSep c = false := by
  induction l with
  | nil => intro c cs h; simp [collapseAux] at h
  | cons d rest ih =>
    intro c cs h
    by_cases hd : isSep d = true
    · rw [collapseAux_sep_true rest hd] at h
      exact ih c cs h
    · have hdf : isSep d = false := Bool.eq_false_iff.mpr hd
      rw [collapseAux_nonsep rest true hdf] at h
      injection h with h1 _
      subst h1
      exact hdf

/-- There are never two adjacent separator characters. -/
def noSepRun : List Char → Bool
  | a :: b :: rest => !(isSep a && isSep b) && noSepRun (b :: rest)
  | _ => true

theorem noSepRun_tail {c : Char} {l : List Char}
    (h : noSepRun (c :: l) = true) : noSepRun l = true := by
  cases l with
  | nil => rfl
  | cons e es =>
    simp only [noSepRun, Bool.and_eq_true] at h
    exact h.2

theorem noSepRun_cons {c : Char} {l : List Char} (hc : isSep c = false)
    (hl : noSepRun l = true) : noSepRun (c :: l) = true := by
  cases l with
  | nil => rfl
  | cons e es =>
    simp only [noSepRun, Bool.and_eq_true, Bool.not_eq_true']
    exact ⟨by simp [hc], hl⟩

theorem noSepRun_collapseAux (b : Bool) (l : List Char) :
    noSepRun (collapseAux b l) = true := by
  induction l generalizing b with
  | nil => rfl
  | cons d rest ih =>
    by_cases hd : isSep d = true
    · cases b with
      | true => rw [collapseAux_sep_true rest hd]; exact ih true
      | false =>
        rw [collapseAux_sep_false rest hd]
        rcases he : collapseAux true rest with _ | ⟨e, es⟩
        · rfl
        · have hes : isSep e = false := collapseAux_true_head rest e es he
          have hrun : noSepRun (e :: es) = true := by
            have h1 := ih true
            rwa [he] at h1
          simp [noSepRun, hes, hrun]
    · have hdf : isSep d = false := Bool.eq_false_iff.mpr hd
      rw [collapseAux_nonsep rest b hdf]
      exact noSepRun_cons hdf (ih false)

theorem collapseAux_eq_self (l : List Char)
    (hs : ∀ c ∈ l, isPySpace c = false) (hn : noSepRun l = true) :
    collapseAux false l = l ∧
      ∀ c cs, l = c :: cs → isSep c = false → collapseAux true l = l := by
  induction l with
  | nil => exact ⟨rfl, fun c cs h => by cases h⟩
  | cons d rest ih =>
    have hs' : ∀ c ∈ rest, isPySpace c = false :=
      fun c hc => hs c (List.mem_cons_of_mem d hc)
    obtain ⟨ih1, ih2⟩ := ih hs' (noSepRun_tail hn)
    by_cases hd : isSep d = true
    · have hdc : d = '-' := by
        have hns := hs d (List.mem_cons_self d rest)
        simp only [isSep, hns, Bool.or_false, beq_iff_eq] at hd
        exact hd
      have htrue : collapseAux true rest = rest := by
        cases rest with
        | nil => rfl
        | cons e es =>
          have he : isSep e = false := by
            have h1 := hn
            simp only [noSepRun, Bool.and_eq_true, Bool.not_eq_true'] at h1
            have h2 := h1.1
            rw [hd] at h2
            simpa using h2
          exact ih2 e es rfl he
      refine ⟨?_, ?_⟩
      · rw [collapseAux_sep_false rest hd, htrue, hdc]
      · intro c cs h hc
        injection h with h1 h2
        subst h1
        simp [hc] at hd
    · have hdf : isSep d = false := Bool.eq_false_iff.mpr hd
      refine ⟨?_, ?_⟩
      · rw [collapseAux_nonsep rest false hdf, ih1]
      · intro c cs h hc
        rw [collapseAux_nonsep rest true hdf, ih1]

/-! ## Character facts -/

theorem toNat_ofNat_shift (n : Nat) (h1 : 65 ≤ n) (h2 : n ≤ 90) :
    (Char.ofNat (n + 32)).toNat = n + 32 := by
  interval_cases n <;> decide

theorem isPySpace_toNat {c : Char} (h : isPySpace c = true) : c.toNat ≤ 32 := by
  simp only [isPySpace, Bool.or_eq_true, beq_iff_eq] at h
  rcases h with ((((h | h) | h) | h) | h) | h <;> subst h <;> decide

theorem isPySpace_isSep {c : Char} (h : isPySpace c = true) : isSep c = true := by
  simp [isSep, h]

theorem asciiLower_fix {c : Char} (h : ¬(65 ≤ c.toNat ∧ c.toNat ≤ 90)) :
    asciiLower c = c := by
  unfold asciiLower
  rw [if_neg]
  simp only [Bool.and_eq_true, decide_eq_true_eq]
  exact h

theorem asciiLower_shift {c : Char} (h1 : 65 ≤ c.toNat) (h2 : c.toNat ≤ 90) :
    97 ≤ (asciiLower c).toNat ∧ (asciiLower c).toNat ≤ 122 := by
  unfold asciiLower
  rw [if_pos]
  · rw [toNat_ofNat_shift c.toNat h1 h2]
    omega
  · simp only [Bool.and_eq_true, decide_eq_true_eq]
    exact ⟨h1, h2⟩

theorem slugChar_ascii {c : Char} (h : slugChar c) : c.toNat < 128 := by
  rcases h with h | h | h | h
  · subst h; decide
  · subst h; decide
  · omega
  · omega

theorem slugChar_keep {c : Char} (h : slugChar c) : keepChar c = true := by
  rcases h with h | h | h | h
  · subst h; decide
  · subst h; decide
  · simp only [keepChar, isWordByte, Bool.or_eq_true, Bool.and_eq_true,
      decide_eq_true_eq]
    tauto
  · simp only [keepChar, isWordByte, Bool.or_eq_true, Bool.and_eq_true,
      decide_eq_true_eq]
    tauto

theorem slugChar_not_space {c : Char} (h : slugChar c) : isPySpace c = false := by
  cases hsp : isPySpace c with
  | false => rfl
  | true =>
    have h32 := isPySpace_toNat hsp
    rcases h with h | h | h | h
    · subst h; exact absurd h32 (by decide)
    · subst h; exact absurd h32 (by decide)
    · omega
    · omega

theorem slugChar_lower_fix {c : Char} (h : slugChar c) : asciiLower c = c := by
  rcases h with h | h | h | h
  · subst h; decide
  · subst h; decide
  · exact asciiLower_fix (by omega)
  · exact asciiLower_fix (by omega)

theorem slugChar_nonminus_word {c : Char} (h : slugChar c) (hm : c ≠ '-') :
    isWordByte c = true := by
  rcases h with h | h | h | h
  · exact absurd h hm
  · subst h; decide
  · simp only [isWordByte, Bool.or_eq_true, Bool.and_eq_true, decide_eq_true_eq]
    tauto
  · simp only [isWordByte, Bool.or_eq_true, Bool.and_eq_true, decide_eq_true_eq]
    tauto

/-! ## The character set of slugify output -/

theorem mem_pyStrip {c : Char} {l : List Char} (h : c ∈ pyStrip l) : c ∈ l := by
  unfold pyStrip at h
  rw [List.mem_reverse] at h
  have h2 := (List.dropWhile_sublist isPySpace).subset h
  rw [List.mem_reverse] at h2
  exact (List.dropWhile_sublist isPySpace).subset h2

/-- Every character produced by `slugify` is a hyphen, an underscore, a
lowercase ASCII letter or an ASCII digit. -/
theorem slugify_chars (residue : Char → List Char) (value : List Char) :
    ∀ c ∈ slugify residue value, slugChar c := by
  intro c hc
  unfold slugify collapseSeps at hc
  rcases mem_collapseAux c false _ hc with h1 | ⟨h2, h3⟩
  · exact Or.inl h1
  · rcases List.mem_map.mp h2 with ⟨c0, hc0, hlow⟩
    have hkeep : keepChar c0 = true :=
      (List.mem_filter.mp (mem_pyStrip hc0)).2
    simp only [keepChar, Bool.or_eq_true] at hkeep
    rcases hkeep with (hw | hsp) | hm
    · -- c0 is a word character
      simp only [isWordByte, Bool.or_eq_true, Bool.and_eq_true,
        decide_eq_true_eq, beq_iff_eq] at hw
      rcases hw with ((⟨ha, hb⟩ | ⟨ha, hb⟩) | ⟨ha, hb⟩) | hu
      · -- uppercase letter: lowered into [97, 122]
        have := asciiLower_shift ha hb
        rw [hlow] at this
        exact Or.inr (Or.inr (Or.inl this))
      · -- lowercase letter: fixed
        have hfix : asciiLower c0 = c0 := asciiLower_fix (by omega)
        rw [hfix] at hlow
        subst hlow
        exact Or.inr (Or.inr (Or.inl ⟨ha, hb⟩))
      · -- digit: fixed
        have hfix : asciiLower c0 = c0 := asciiLower_fix (by omega)
        rw [hfix] at hlow
        subst hlow
        exact Or.inr (Or.inr (Or.inr ⟨ha, hb⟩))
      · -- underscore: fixed
        subst hu
        have hfix : asciiLower '_' = '_' := by decide
        rw [hfix] at hlow
        subst hlow
        exact Or.inr (Or.inl rfl)
    · -- c0 is whitespace: its image is whitespace, contradicting h3
      have hfix : asciiLower c0 = c0 :=
        asciiLower_fix (by have := isPySpace_toNat hsp; omega)
      rw [hfix] at hlow
      subst hlow
      rw [isPySpace_isSep hsp] at h3
      cases h3
    · -- c0 is a hyphen
      rw [beq_iff_eq] at hm
      subst hm
      have hfix : asciiLower '-' = '-' := by decide
      rw [hfix] at hlow
      subst hlow
      exact Or.inl rfl

/-! ## Identity lemmas used for idempotence -/

theorem normalizeAscii_eq_self (residue : Char → List Char) (l : List Char)
    (h : ∀ c ∈ l, c.toNat < 128) : normalizeAscii residue l = l := by
  induction l with
  | nil => rfl
  | cons d rest ih =>
    have hd : d.toNat < 128 := h d (List.mem_cons_self d rest)
    have htail := ih (fun c hc => h c (List.mem_cons_of_mem d hc))
    unfold normalizeAscii at htail ⊢
    rw [List.flatMap_cons, if_pos hd, List.singleton_append, htail]

theorem dropWhile_eq_self_of {p : Char → Bool} {l : List Char}
    (h : ∀ c ∈ l, p c = false) : l.dropWhile p = l := by
  cases l with
  | nil => rfl
  | cons d rest =>
    have hd : p d = false := h d (List.mem_cons_self d rest)
    rw [List.dropWhile_cons, if_neg (by simp [hd])]

theorem pyStrip_eq_self {l : List Char} (h : ∀ c ∈ l, isPySpace c = false) :
    pyStrip l = l := by
  unfold pyStrip
  rw [dropWhile_eq_self_of h,
    dropWhile_eq_self_of (fun c hc => h c (List.mem_reverse.mp hc))]
  exact List.reverse_reverse l

theorem map_eq_self_of {f : Char → Char} {l : List Char}
    (h : ∀ c ∈ l, f c = c) : l.map f = l :=
  (List.map_congr_left h).trans (List.map_id l)

/-! ## Claims C4 and C9: the slug utility -/

/-- C4 counterexample: `slugify` keeps underscores (Python `\w` includes
`_`), and `.strip()` removes only whitespace so hyphens survive at both
ends: `slugify("_") = "_"` and `slugify("-a-") = "-a-"`.  This violates
both the `[a-z0-9-]`-only character-set clause and the
no-leading/trailing-hyphen clause of the claim. -/
theorem slugify_charset_counterexample :
    slugify (fun _ => []) ['_'] = ['_'] ∧
      slugify (fun _ => []) ['-', 'a', '-'] = ['-', 'a', '-'] :=
  ⟨rfl, rfl⟩

/-- C4 (amended): for every ASCII-residue function and every input string,
every character of the output of `slugify` lies in `[a-z0-9_-]`
(underscore included, since Python `\w` keeps it); leading or trailing
hyphens may remain, since `.strip()` removes only whitespace. -/
theorem slugify_output_charset (residue : Char → List Char) (value : List Char) :
    ∀ c ∈ slugify residue value,
      c = '-' ∨ c = '_' ∨ (97 ≤ c.toNat ∧ c.toNat ≤ 122) ∨
        (48 ≤ c.toNat ∧ c.toNat ≤ 57) :=
  slugify_chars residue value

/-- C9: `slugify` is deterministic (equal inputs give equal outputs) and
idempotent: applying it to its own output returns the output unchanged. -/
theorem slugify_deterministic_idempotent (residue : Char → List Char)
    (value : List Char) :
    slugify residue (slugify residue value) = slugify residue value ∧
      ∀ other : List Char, value = other →
        slugify residue value = slugify residue other := by
  constructor
  · have hchar := slugify_chars residue value
    set T := slugify residue value with hT
    have h1 : normalizeAscii residue T = T :=
      normalizeAscii_eq_self residue T (fun c hc => slugChar_ascii (hchar c hc))
    have h2 : T.filter keepChar = T :=
      List.filter_eq_self.mpr (fun c hc => slugChar_keep (hchar c hc))
    have h3 : pyStrip T = T :=
      pyStrip_eq_self (fun c hc => slugChar_not_space (hchar c hc))
    have h4 : T.map asciiLower = T :=
      map_eq_self_of (fun c hc => slugChar_lower_fix (hchar c hc))
    have h5 : collapseAux false T = T := by
      have hs : ∀ c ∈ T, isPySpace c = false :=
        fun c hc => slugChar_not_space (hchar c hc)
      have hn : noSepRun T = true := noSepRun_collapseAux false _
      exact (collapseAux_eq_self T hs hn).1
    calc slugify residue T
        = collapseSeps (List.map asciiLower
            (pyStrip ((normalizeAscii residue T).filter keepChar))) := rfl
      _ = T := by rw [h1, h2, h3, h4]; exact h5
  · intro other h
    rw [h]

/-! ## Generic retention pruner

The rotation step shared by dump_db, dump_json and export: list the
directory, keep the entries matching the command's pattern, sort
ascending (by `os.path.getmtime` or by plain string order) and delete the
slice `archives[:-k]`.
-/

section Prune

variable {α : Type} {β : Type} [DecidableEq α] [LinearOrder β]

/-- Stable insertion of `x` into a list sorted ascending by `key`: `x`
goes before the first element with a strictly greater or equal key that
came later in the original list, matching Python's stable `list.sort`. -/
def insKey (key : α → β) (x : α) : List α → List α
  | [] => [x]
  | y :: ys => if key x ≤ key y then x :: y :: ys else y :: insKey key x ys

/-- Insertion sort ascending by `key` (a model of Python's stable sort;
the claims only depend on sortedness and permutation). -/
def sortKey (key : α → β) : List α → List α
  | [] => []
  | x :: xs => insKey key x (sortKey key xs)

theorem insKey_perm (key : α → β) (x : α) (l : List α) :
    (insKey key x l).Perm (x :: l) := by
  induction l with
  | nil => exact List.Perm.refl [x]
  | cons y ys ih =>
    unfold insKey
    by_cases h : key x ≤ key y
    · rw [if_pos h]
    · rw [if_neg h]
      exact (List.Perm.cons y ih).trans (List.Perm.swap x y ys)

theorem sortKey_perm (key : α → β) (l : List α) : (sortKey key l).Perm l := by
  induction l with
  | nil => exact List.Perm.refl []
  | cons x xs ih =>
    exact (insKey_perm key x (sortKey key xs)).trans (List.Perm.cons x ih)

theorem insKey_pairwise (key : α → β) (x : α) (l : List α)
    (h : List.Pairwise (fun a b => key a ≤ key b) l) :
    List.Pairwise (fun a b => key a ≤ key b) (insKey key x l) := by
  induction l with
  | nil => simp [insKey]
  | cons y ys ih =>
    rcases List.pairwise_cons.mp h with ⟨hy, hys⟩
    unfold insKey
    by_cases hxy : key x ≤ key y
    · rw [if_pos hxy]
      refine List.pairwise_cons.mpr ⟨?_, h⟩
      intro b hb
      rcases List.mem_cons.mp hb with rfl | hb'
      · exact hxy
      · exact le_trans hxy (hy b hb')
    · rw [if_neg hxy]
      have hyx : key y ≤ key x := le_of_not_le hxy
      refine List.pairwise_cons.mpr ⟨?_, ih hys⟩
      intro b hb
      rcases List.mem_cons.mp ((insKey_perm key x ys).subset hb) with rfl | hb'
      · exact hyx
      · exact hy b hb'

theorem sortKey_pairwise (key : α → β) (l : List α) :
    List.Pairwise (fun a b => key a ≤ key b) (sortKey key l) := by
  induction l with
  | nil => exact List.Pairwise.nil
  | cons x xs ih => exact insKey_pairwise key x _ ih

theorem pairwise_take_drop {R : α → α → Prop} {l : List α}
    (h : List.Pairwise R l) (n : Nat) :
    ∀ a ∈ l.take n, ∀ b ∈ l.drop n, R a b := by
  have h2 : List.Pairwise R (l.take n ++ l.drop n) := by
    rw [List.take_append_drop]
    exact h
  exact (List.pairwise_append.mp h2).2.2

/-- Python `l[:-k]` for a natural `k`: empty when `k = 0` (the slice is
then `l[:0]`), otherwise everything except the last `k` elements. -/
def pySliceNeg (l : List α) (k : Nat) : List α :=
  if k = 0 then [] else l.take (l.length - k)

/-- Entries deleted by one rotation step: `entries` filtered by the
command's pattern, sorted ascending by `key`, sliced with
`archives[:-k]`. -/
def pruneDeleted (key : α → β) (p : α → Bool) (k : Nat)
    (entries : List α) : List α :=
  pySliceNeg (sortKey key (entries.filter p)) k

/-- Directory contents remaining after the rotation step. -/
def afterPrune (key : α → β) (p : α → Bool) (k : Nat)
    (entries : List α) : List α :=
  entries.filter (fun e => decide (e ∉ pruneDeleted key p k entries))

theorem prune_spec (key : α → β) (p : α → Bool) (k : Nat) (entries : List α)
    (hk : 1 ≤ k)
    (hnd : ((entries.filter p).map key).Nodup) :
    (∀ e ∈ pruneDeleted key p k entries, p e = true)
    ∧ ((entries.filter p).length ≤ k → pruneDeleted key p k entries = [])
    ∧ (k < (entries.filter p).length →
        (pruneDeleted key p k entries).length = (entries.filter p).length - k)
    ∧ (k ≤ (entries.filter p).length →
        ((afterPrune key p k entries).filter p).length = k)
    ∧ (∀ d ∈ pruneDeleted key p k entries,
        ∀ r ∈ (afterPrune key p k entries).filter p, key d < key r) := by
  set M := entries.filter p with hM
  set S := sortKey key M with hS
  set n := M.length with hn
  have hlen : S.length = n := (sortKey_perm key M).length_eq
  have hknz : k ≠ 0 := by omega
  have hD : pruneDeleted key p k entries = S.take (n - k) := by
    unfold pruneDeleted pySliceNeg
    rw [if_neg hknz, ← hM, ← hS, hlen]
  set D := pruneDeleted key p k entries with hDdef
  set q : α → Bool := fun e => decide (e ∉ D) with hq
  have hsub : ∀ e ∈ D, e ∈ M := by
    intro e he
    rw [hD] at he
    exact (sortKey_perm key M).subset (List.take_subset _ _ he)
  have hnodupM : M.Nodup := List.Nodup.of_map key hnd
  have hnodupS : S.Nodup := ((sortKey_perm key M).nodup_iff).mpr hnodupM
  have hsplit : D ++ S.drop (n - k) = S := by
    rw [hD]
    exact List.take_append_drop _ S
  have hdisj : D.Disjoint (S.drop (n - k)) :=
    List.disjoint_of_nodup_append (by rw [hsplit]; exact hnodupS)
  -- the matching entries that remain are exactly the sorted suffix
  have hfilter : (afterPrune key p k entries).filter p = M.filter q := by
    unfold afterPrune
    rw [← hDdef, ← hq, List.filter_filter, hM, List.filter_filter]
    exact List.filter_congr (fun a _ => by rw [Bool.and_comm])
  have hDfilter : D.filter q = [] := by
    rw [List.filter_eq_nil_iff]
    intro a ha
    simp only [hq, decide_eq_true_eq, not_not]
    exact ha
  have hRfilter : (S.drop (n - k)).filter q = S.drop (n - k) := by
    rw [List.filter_eq_self]
    intro r hr
    simp only [hq, decide_eq_true_eq]
    intro hrD
    exact hdisj hrD hr
  have hperm : (M.filter q).Perm (S.drop (n - k)) := by
    have h1 : (S.filter q).Perm (M.filter q) :=
      List.Perm.filter q (sortKey_perm key M)
    have h2 : S.filter q = S.drop (n - k) := by
      conv_lhs => rw [← hsplit]
      rw [List.filter_append, hDfilter, hRfilter, List.nil_append]
    rw [← h2]
    exact h1.symm
  refine ⟨?_, ?_, ?_, ?_, ?_⟩
  · intro e he
    exact (List.mem_filter.mp (hsub e he)).2
  · intro hle
    rw [hD]
    have : n - k = 0 := by omega
    rw [this, List.take_zero]
  · intro hlt
    rw [hD, List.length_take, hlen]
    omega
  · intro hle
    rw [hfilter, hperm.length_eq, List.length_drop, hlen]
    omega
  · intro d hd r hr
    rw [hfilter] at hr
    have hrdrop : r ∈ S.drop (n - k) := hperm.subset hr
    have hdtake : d ∈ S.take (n - k) := by rw [← hD]; exact hd
    have hle : key d ≤ key r :=
      pairwise_take_drop (sortKey_pairwise key M) (n - k) d hdtake r hrdrop
    have hndS : (S.map key).Nodup :=
      (((sortKey_perm key M).map key).nodup_iff).mpr hnd
    have hkeydisj : (D.map key).Disjoint ((S.drop (n - k)).map key) := by
      apply List.disjoint_of_nodup_append
      rw [← List.map_append, hsplit]
      exact hndS
    have hne : key d ≠ key r := by
      intro hcon
      exact hkeydisj (List.mem_map_of_mem key hd)
        (hcon ▸ List.mem_map_of_mem key hrdrop)
    exact lt_of_le_of_ne hle hne

end Prune

/-! ## Claim C1: the rotation step contract -/

/-- A directory entry as seen by the file-rotation steps: a file name
within the target directory, and its modification time
(`os.path.getmtime`). -/
structure Entry where
  name : String
  mtime : Nat
deriving DecidableEq, Repr

/-- C1 counterexample: with keep-count `K = 0` (reachable in the source
as `2 * License.query.count()` with zero licenses) and one matching entry
(`N = 1`, so `K < N`), the claim demands that the `N − K = 1` oldest
matching entry be deleted; but the Python slice `archives[:-0]` is
`archives[:0] = []`, so the rotation step deletes nothing. -/
theorem rotation_keep_count_zero_counterexample :
    0 < (([⟨"a", 0⟩] : List Entry).filter (fun _ => true)).length ∧
      pruneDeleted Entry.mtime (fun _ => true) 0 [⟨"a", 0⟩] = [] :=
  ⟨by decide, rfl⟩

/-- C1 (amended): for every target directory listing, matching predicate
and keep-count `K ≥ 1`, given pairwise-distinct modification times among
the matching entries: only matching entries are ever deleted; if `N ≤ K`
nothing is deleted; if `K < N` exactly the `N − K` oldest matching
entries are deleted, exactly `K` matching entries remain, and every
deleted entry is strictly older than every remaining matching entry.
(The `K ≥ 1` bound is forced: at `K = 0` the slice `archives[:-0]` is
empty and nothing is deleted.) -/
theorem rotation_step_spec (entries : List Entry) (p : Entry → Bool) (K : Nat)
    (hK : 1 ≤ K)
    (hnd : ((entries.filter p).map Entry.mtime).Nodup) :
    (∀ e ∈ pruneDeleted Entry.mtime p K entries, p e = true)
    ∧ ((entries.filter p).length ≤ K →
        pruneDeleted Entry.mtime p K entries = [])
    ∧ (K < (entries.filter p).length →
        (pruneDeleted Entry.mtime p K entries).length =
          (entries.filter p).length - K)
    ∧ (K ≤ (entries.filter p).length →
        ((afterPrune Entry.mtime p K entries).filter p).length = K)
    ∧ (∀ d ∈ pruneDeleted Entry.mtime p K entries,
        ∀ r ∈ (afterPrune Entry.mtime p K entries).filter p,
          d.mtime < r.mtime) :=
  prune_spec Entry.mtime p K entries hK hnd

/-- Witness for `rotation_step_spec`: three matching entries with
distinct modification times and keep-count 1; the two oldest are deleted
and they are strictly older than the survivor. -/
theorem rotation_step_spec_witness :
    (1 : Nat) ≤ 1 ∧
    ((([⟨"a", 3⟩, ⟨"b", 1⟩, ⟨"c", 2⟩] : List Entry).filter
        (fun _ => true)).map Entry.mtime).Nodup ∧
    (pruneDeleted Entry.mtime (fun _ => true) 1
        [⟨"a", 3⟩, ⟨"b", 1⟩, ⟨"c", 2⟩]).length = 3 - 1 :=
  ⟨by decide, by decide,
    (rotation_step_spec [⟨"a", 3⟩, ⟨"b", 1⟩, ⟨"c", 2⟩] (fun _ => true) 1
      (by decide) (by decide)).2.2.1 (by decide)⟩

/-! ## The compiled patterns of the three rotation steps

`re.search` semantics: the pattern may match at any position, and
trailing characters are free.  `+` is modelled with full backtracking;
an unescaped `.` matches any single character.
-/

/-- Consume a literal at the head of the input, returning the rest. -/
def dropLit : List Char → List Char → Option (List Char)
  | [], rest => some rest
  | _ :: _, [] => none
  | l :: ls, r :: rs => if l = r then dropLit ls rs else none

/-- `cl*` followed by input accepted by `sfx`, with backtracking. -/
def starThen (cl : Char → Bool) (sfx : List Char → Bool) : List Char → Bool
  | [] => sfx []
  | c :: rest => sfx (c :: rest) || (cl c && starThen cl sfx rest)

/-- `cl+` followed by input accepted by `sfx`, with backtracking. -/
def plusThen (cl : Char → Bool) (sfx : List Char → Bool) : List Char → Bool
  | [] => false
  | c :: rest => cl c && starThen cl sfx rest

/-- Try a matcher at every position of the input (`re.search`). -/
def searchAll (m : List Char → Bool) : List Char → Bool
  | [] => m []
  | c :: rest => m (c :: rest) || searchAll m rest

/-- The tail `.tar` of the dump_db pattern
`cb-backup-[0-9]+-[0-9]+.tar`: any one character (the unescaped dot),
then the literal `tar`. -/
def dotTar : List Char → Bool
  | _ :: 't' :: 'a' :: 'r' :: _ => true
  | _ => false

/-- Match `cb-backup-[0-9]+-[0-9]+.tar` at the start of the input. -/
def dbHere (l : List Char) : Bool :=
  match dropLit "cb-backup-".toList l with
  | none => false
  | some r1 =>
    plusThen Char.isDigit
      (fun r2 =>
        match r2 with
        | '-' :: r3 => plusThen Char.isDigit dotTar r3
        | _ => false) r1

/-- `pattern.search` for `re.compile("cb-backup-[0-9]+-[0-9]+.tar")`. -/
def dbSearch (s : String) : Bool := searchAll dbHere s.toList

/-- A character of the class `[-\w]`. -/
def isDashWord (c : Char) : Bool := c == '-' || isWordByte c

/-- The tail `-json.tar.bz2` of the dump_json pattern (dots unescaped). -/
def jsonTail : List Char → Bool
  | '-' :: 'j' :: 's' :: 'o' :: 'n' :: _ :: 't' :: 'a' :: 'r' :: _ :: 'b' :: 'z' :: '2' :: _ =>
    true
  | _ => false

/-- Match `critiquebrainz-[0-9]+-[-\w]+-json.tar.bz2` at the start. -/
def jsonHere (l : List Char) : Bool :=
  match dropLit "critiquebrainz-".toList l with
  | none => false
  | some r1 =>
    plusThen Char.isDigit
      (fun r2 =>
        match r2 with
        | '-' :: r3 => plusThen isDashWord jsonTail r3
        | _ => false) r1

/-- `pattern.search` for
`re.compile("critiquebrainz-[0-9]+-[-\w]+-json.tar.bz2")`. -/
def jsonSearch (s : String) : Bool := searchAll jsonHere s.toList

/-- Match `[0-9]+-[0-9]+` at the start of the input. -/
def tsHere (l : List Char) : Bool :=
  plusThen Char.isDigit
    (fun r =>
      match r with
      | '-' :: r2 => plusThen Char.isDigit (fun _ => true) r2
      | _ => false) l

/-- `pattern.search` for `re.compile("[0-9]+-[0-9]+")`. -/
def tsSearch (s : String) : Bool := searchAll tsHere s.toList

/-! ## Claim C2: dump_json rotation -/

/-- The filter of dump_json's rotation step: the compiled pattern is
searched in the joined path `os.path.join(location, f)`. -/
def jsonMatch (location : String) (e : Entry) : Bool :=
  jsonSearch (location ++ "/" ++ e.name)

/-- Deletion list of dump_json's rotation step; the keep-count is
`2 * License.query.count()` for `L` configured licenses. -/
def dumpJsonRotateDeleted (location : String) (entries : List Entry)
    (L : Nat) : List Entry :=
  pruneDeleted Entry.mtime (jsonMatch location) (2 * L) entries

/-- Directory contents remaining after dump_json's rotation step. -/
def dumpJsonRotateRemaining (location : String) (entries : List Entry)
    (L : Nat) : List Entry :=
  afterPrune Entry.mtime (jsonMatch location) (2 * L) entries

/-- C2 counterexample: with zero configured licenses (`L = 0`) and one
matching archive present, the claim demands that only the `2 × 0 = 0`
most recently modified matching files be retained, i.e. that the archive
be deleted; but `archives[:(-2 * 0)] = archives[:0] = []`, so nothing is
deleted and the matching archive survives the rotation step. -/
theorem dump_json_rotation_zero_licenses_counterexample :
    jsonMatch "dump" ⟨"critiquebrainz-20140101-cc0-json.tar.bz2", 1⟩ = true ∧
      dumpJsonRotateDeleted "dump"
        [⟨"critiquebrainz-20140101-cc0-json.tar.bz2", 1⟩] 0 = [] :=
  ⟨by decide, rfl⟩

/-- C2 (amended): for every invocation of dump_json's rotation step with
`L ≥ 1` configured licenses, given pairwise-distinct modification times
among the files matching the JSON-archive pattern: only matching files
are ever deleted; when at least `2·L` matching files exist, exactly the
`2·L` most recently modified ones remain (e.g. 6 files for `L = 3`) and
every older matching file is deleted; when fewer than `2·L` exist,
nothing is deleted.  (The `L ≥ 1` bound is forced: with `L = 0` the slice
`archives[:0]` is empty and nothing is deleted.) -/
theorem dump_json_rotation_spec (location : String) (entries : List Entry)
    (L : Nat) (hL : 1 ≤ L)
    (hnd : ((entries.filter (jsonMatch location)).map Entry.mtime).Nodup) :
    (∀ e ∈ dumpJsonRotateDeleted location entries L,
        jsonMatch location e = true)
    ∧ ((entries.filter (jsonMatch location)).length ≤ 2 * L →
        dumpJsonRotateDeleted location entries L = [])
    ∧ (2 * L < (entries.filter (jsonMatch location)).length →
        (dumpJsonRotateDeleted location entries L).length =
          (entries.filter (jsonMatch location)).length - 2 * L)
    ∧ (2 * L ≤ (entries.filter (jsonMatch location)).length →
        ((dumpJsonRotateRemaining location entries L).filter
          (jsonMatch location)).length = 2 * L)
    ∧ (∀ d ∈ dumpJsonRotateDeleted location entries L,
        ∀ r ∈ (dumpJsonRotateRemaining location entries L).filter
          (jsonMatch location), d.mtime < r.mtime) :=
  prune_spec Entry.mtime (jsonMatch location) (2 * L) entries (by omega) hnd

/-- Witness for `dump_json_rotation_spec`: one license, three matching
archives with distinct modification times; exactly `2 · 1 = 2` matching
archives remain after the rotation step. -/
theorem dump_json_rotation_spec_witness :
    (1 : Nat) ≤ 1 ∧
    ((([⟨"critiquebrainz-20140101-mit-json.tar.bz2", 1⟩,
        ⟨"critiquebrainz-20140102-mit-json.tar.bz2", 2⟩,
        ⟨"critiquebrainz-20140103-mit-json.tar.bz2", 3⟩] : List Entry).filter
          (jsonMatch "dump")).map Entry.mtime).Nodup ∧
    ((dumpJsonRotateRemaining "dump"
        [⟨"critiquebrainz-20140101-mit-json.tar.bz2", 1⟩,
         ⟨"critiquebrainz-20140102-mit-json.tar.bz2", 2⟩,
         ⟨"critiquebrainz-20140103-mit-json.tar.bz2", 3⟩] 1).filter
        (jsonMatch "dump")).length = 2 * 1 :=
  ⟨by decide, by decide,
    (dump_json_rotation_spec "dump"
      [⟨"critiquebrainz-20140101-mit-json.tar.bz2", 1⟩,
       ⟨"critiquebrainz-20140102-mit-json.tar.bz2", 2⟩,
       ⟨"critiquebrainz-20140103-mit-json.tar.bz2", 3⟩] 1
      (by decide) (by decide)).2.2.2.1 (by decide)⟩

/-! ## Claim C3: export rotation -/

/-- A directory entry as seen by export's rotation step: a name within
the destination directory and whether it is a directory
(`os.path.isdir`). -/
structure DirEntry where
  name : String
  isDir : Bool
deriving DecidableEq, Repr

/-- `os.path.join(location, f)`. -/
def joinPath (location : String) (n : String) : String := location ++ "/" ++ n

/-- The filter chain of export's rotation step: the pattern
`[0-9]+-[0-9]+` searched in the joined path, then `os.path.isdir`. -/
def exportMatch (location : String) (e : DirEntry) : Bool :=
  tsSearch (joinPath location e.name) && e.isDir

/-- The sort key of export's rotation step: `entries.sort()` sorts the
joined path strings; Python 2 compares byte strings lexicographically,
which for UTF-8 equals lexicographic order on the code points. -/
def exportKey (location : String) (e : DirEntry) : List Char :=
  (joinPath location e.name).toList

/-- Deletion list of export's rotation step (`entries[:(-2)]`, removed
with `shutil.rmtree`). -/
def exportRotateDeleted (location : String) (dir : List DirEntry) :
    List DirEntry :=
  pruneDeleted (exportKey location) (exportMatch location) 2 dir

/-- Destination directory contents remaining after export's rotation. -/
def exportRotateRemaining (location : String) (dir : List DirEntry) :
    List DirEntry :=
  afterPrune (exportKey location) (exportMatch location) 2 dir

theorem joinPath_toList_injective (location : String) :
    Function.Injective (fun n => (joinPath location n).toList) := by
  intro a b h
  simp only [joinPath] at h
  have h2 : ((location ++ "/") ++ a).data = ((location ++ "/") ++ b).data := h
  rw [String.data_append, String.data_append] at h2
  exact String.ext (List.append_cancel_left h2)

/-- C3: export's rotation step (i) deletes only entries that are
directories and whose joined path matches the timestamp-like pattern
`[0-9]+-[0-9]+`; (ii) deletes nothing when at most 2 such directories
exist; (iii) otherwise deletes all but 2 of them; (iv) leaves exactly 2
matching export-set directories whenever at least 2 exist; and (v) every
deleted directory is lexicographically smaller — hence, for the
fixed-width `YYYYMMDD-HHMMSS` names, older — than every remaining
matching directory. -/
theorem export_rotation_spec (location : String) (dir : List DirEntry)
    (hnames : (dir.map DirEntry.name).Nodup) :
    (∀ e ∈ exportRotateDeleted location dir,
        e.isDir = true ∧ tsSearch (joinPath location e.name) = true)
    ∧ ((dir.filter (exportMatch location)).length ≤ 2 →
        exportRotateDeleted location dir = [])
    ∧ (2 < (dir.filter (exportMatch location)).length →
        (exportRotateDeleted location dir).length =
          (dir.filter (exportMatch location)).length - 2)
    ∧ (2 ≤ (dir.filter (exportMatch location)).length →
        ((exportRotateRemaining location dir).filter
          (exportMatch location)).length = 2)
    ∧ (∀ d ∈ exportRotateDeleted location dir,
        ∀ r ∈ (exportRotateRemaining location dir).filter
          (exportMatch location),
          joinPath location d.name < joinPath location r.name) := by
  have hnodupf : ((dir.filter (exportMatch location)).map DirEntry.name).Nodup :=
    List.Nodup.sublist
      (List.Sublist.map DirEntry.name (List.filter_sublist dir)) hnames
  have hnd : ((dir.filter (exportMatch location)).map
      (exportKey location)).Nodup := by
    have hcomp : (dir.filter (exportMatch location)).map (exportKey location)
        = ((dir.filter (exportMatch location)).map DirEntry.name).map
            (fun n => (joinPath location n).toList) := by
      rw [List.map_map]
      rfl
    rw [hcomp]
    exact List.Nodup.map (joinPath_toList_injective location) hnodupf
  obtain ⟨c1, c2, c3, c4, c5⟩ :=
    prune_spec (exportKey location) (exportMatch location) 2 dir
      (by omega) hnd
  refine ⟨?_, c2, c3, c4, ?_⟩
  · intro e he
    have h2 := c1 e he
    simp only [exportMatch, Bool.and_eq_true] at h2
    exact ⟨h2.2, h2.1⟩
  · intro d hd r hr
    have hlt := c5 d hd r hr
    rw [String.lt_iff_toList_lt]
    exact hlt

/-- Witness for `export_rotation_spec`: three timestamped export-set
directories plus a non-matching directory and a matching plain file;
exactly 2 matching directories remain. -/
theorem export_rotation_spec_witness :
    (([⟨"20140101-000000", true⟩, ⟨"20140102-000000", true⟩,
       ⟨"20140103-000000", true⟩, ⟨"temp", true⟩,
       ⟨"20140104-000000", false⟩] : List DirEntry).map DirEntry.name).Nodup ∧
    ((exportRotateRemaining "export"
        [⟨"20140101-000000", true⟩, ⟨"20140102-000000", true⟩,
         ⟨"20140103-000000", true⟩, ⟨"temp", true⟩,
         ⟨"20140104-000000", false⟩]).filter
        (exportMatch "export")).length = 2 :=
  ⟨by decide,
    (export_rotation_spec "export"
      [⟨"20140101-000000", true⟩, ⟨"20140102-000000", true⟩,
       ⟨"20140103-000000", true⟩, ⟨"temp", true⟩,
       ⟨"20140104-000000", false⟩] (by decide)).2.2.2.1 (by decide)⟩

/-! ## Claim C5: create_path -/

/-- A filesystem node: a directory or a plain file. -/
inductive FsNode where
  | dir : FsNode
  | file : FsNode
deriving DecidableEq, Repr

/-- The POSIX error numbers relevant to `create_path`. -/
inductive Errno where
  | EEXIST : Errno
  | ENOTDIR : Errno
  | ENOENT : Errno
deriving DecidableEq, Repr

/-- A filesystem: a finite association of absolute paths (lists of
segments) to nodes.  The root directory is implicit and always exists. -/
abbrev Fs := List (List String × FsNode)

def lookupFs (fs : Fs) (p : List String) : Option FsNode :=
  (fs.find? (fun kv => decide (kv.1 = p))).map Prod.snd

/-- `os.mkdir(path)`: `EEXIST` if anything — directory or plain file —
already exists at `path`; `ENOTDIR` if the parent exists but is not a
directory; `ENOENT` if the parent is missing. -/
def mkdir (fs : Fs) (p : List String) : Except Errno Fs :=
  match lookupFs fs p with
  | some _ => .error .EEXIST
  | none =>
    if p = [] then .error .EEXIST
    else if p.dropLast = [] then .ok ((p, FsNode.dir) :: fs)
    else
      match lookupFs fs p.dropLast with
      | some FsNode.dir => .ok ((p, FsNode.dir) :: fs)
      | some FsNode.file => .error .ENOTDIR
      | none => .error .ENOENT

/-- Python 2 `os.makedirs(name)`: if the parent is missing (and is not
the root), recursively create it, then `mkdir(name)`.  The recursion
descends through `dropLast`, so `p.length` steps of fuel always suffice;
the fuel only makes the recursion structural. -/
def makedirsFuel : Nat → Fs → List String → Except Errno Fs
  | 0, fs, p => mkdir fs p
  | fuel + 1, fs, p =>
    if p.dropLast = [] ∨ lookupFs fs p.dropLast ≠ none then mkdir fs p
    else
      match makedirsFuel fuel fs p.dropLast with
      | .error e => .error e
      | .ok fs2 => mkdir fs2 p

def makedirs (fs : Fs) (p : List String) : Except Errno Fs :=
  makedirsFuel p.length fs p

/-- `create_path(path)` from manage.py: call `os.makedirs(path)` and
swallow an `OSError` whose errno equals `EEXIST`; re-raise any other. -/
def create_path (fs : Fs) (p : List String) : Except Errno Fs :=
  match makedirs fs p with
  | .ok fs2 => .ok fs2
  | .error e => if e = Errno.EEXIST then .ok fs else .error e

theorem lookupFs_cons (k : List String) (v : FsNode) (fs : Fs)
    (q : List String) :
    lookupFs ((k, v) :: fs) q = if k = q then some v else lookupFs fs q := by
  by_cases h : k = q
  · subst h
    simp [lookupFs, List.find?]
  · simp [lookupFs, List.find?, h]

theorem mkdir_ok {fs : Fs} {p : List String} {fs2 : Fs}
    (h : mkdir fs p = .ok fs2) :
    fs2 = (p, FsNode.dir) :: fs ∧ p ≠ [] ∧ lookupFs fs p = none ∧
      (p.dropLast = [] ∨ lookupFs fs p.dropLast = some FsNode.dir) := by
  unfold mkdir at h
  split at h
  · exact Except.noConfusion h
  next hl =>
    split at h
    · exact Except.noConfusion h
    next hp =>
      split at h
      next hdl =>
        injection h with h2
        exact ⟨h2.symm, hp, hl, Or.inl hdl⟩
      next hdl =>
        split at h
        next hpar =>
          injection h with h2
          exact ⟨h2.symm, hp, hl, Or.inr hpar⟩
        next hpar => exact Except.noConfusion h
        next hpar => exact Except.noConfusion h

theorem makedirsFuel_ok (fuel : Nat) (fs : Fs) (p : List String) (fs2 : Fs)
    (h : makedirsFuel fuel fs p = .ok fs2) :
    lookupFs fs2 p = some FsNode.dir ∧
      (p.dropLast = [] ∨ lookupFs fs2 p.dropLast = some FsNode.dir) := by
  -- every successful return of makedirsFuel is a successful mkdir of p
  have key : ∃ fs1, mkdir fs1 p = .ok fs2 := by
    cases fuel with
    | zero => exact ⟨fs, h⟩
    | succ m =>
      unfold makedirsFuel at h
      split at h
      · exact ⟨fs, h⟩
      · split at h
        · exact Except.noConfusion h
        next fsr hr => exact ⟨fsr, h⟩
  obtain ⟨fs1, hmk⟩ := key
  obtain ⟨hshape, hp, _, hpar⟩ := mkdir_ok hmk
  subst hshape
  have hne : p ≠ p.dropLast := by
    intro hcon
    have hlen := congrArg List.length hcon
    rw [List.length_dropLast] at hlen
    have hpos : 0 < p.length := List.length_pos.mpr hp
    omega
  constructor
  · rw [lookupFs_cons, if_pos rfl]
  · rcases hpar with h1 | h1
    · exact Or.inl h1
    · refine Or.inr ?_
      rw [lookupFs_cons, if_neg hne, h1]

theorem create_path_exists (fs : Fs) (p : List String) (v : FsNode)
    (hpar : p.dropLast = [] ∨ lookupFs fs p.dropLast = some FsNode.dir)
    (hv : lookupFs fs p = some v) : create_path fs p = .ok fs := by
  have hmk : mkdir fs p = .error Errno.EEXIST := by
    unfold mkdir
    rw [hv]
  have hcond : p.dropLast = [] ∨ lookupFs fs p.dropLast ≠ none := by
    rcases hpar with h1 | h1
    · exact Or.inl h1
    · exact Or.inr (by rw [h1]; simp)
  have hmd : makedirs fs p = .error Errno.EEXIST := by
    unfold makedirs
    cases hlen : p.length with
    | zero => exact hmk
    | succ m =>
      unfold makedirsFuel
      rw [if_pos hcond]
      exact hmk
  unfold create_path
  rw [hmd]
  rfl

theorem create_path_eval_ok {fs : Fs} {p : List String} {fsM : Fs}
    (hmd : makedirs fs p = .ok fsM) : create_path fs p = .ok fsM := by
  unfold create_path
  rw [hmd]

theorem create_path_eval_err {fs : Fs} {p : List String} {e : Errno}
    (hmd : makedirs fs p = .error e) :
    create_path fs p = if e = Errno.EEXIST then .ok fs else .error e := by
  unfold create_path
  rw [hmd]

/-- C5 counterexample: a plain (non-directory) file exists at the
requested path.  `os.makedirs` raises `EEXIST` — exactly the errno that
`create_path` swallows — so the call SUCCEEDS, although the claim says it
must fail. -/
theorem create_path_file_counterexample :
    lookupFs [(["a"], FsNode.file)] ["a"] = some FsNode.file ∧
      create_path [(["a"], FsNode.file)] ["a"] =
        .ok [(["a"], FsNode.file)] :=
  ⟨rfl, rfl⟩

/-- C5 (amended): `create_path` succeeds when the path already exists as
a directory, and calling it twice on the same path succeeds both times;
it ALSO succeeds — contrary to the claim — when a same-named
non-directory file exists at that path, because the `EEXIST` raised by
`os.makedirs` is swallowed regardless of the kind of the existing entry;
any filesystem error other than `EEXIST` (such as `ENOTDIR` or `ENOENT`)
propagates.  (The parent-exists hypothesis of the two existing-entry
conjuncts states that the surrounding filesystem is well formed.) -/
theorem create_path_spec (fs : Fs) (p : List String) :
    (∀ fs2, create_path fs p = .ok fs2 → create_path fs2 p = .ok fs2)
    ∧ ((p.dropLast = [] ∨ lookupFs fs p.dropLast = some FsNode.dir) →
        lookupFs fs p = some FsNode.dir → create_path fs p = .ok fs)
    ∧ ((p.dropLast = [] ∨ lookupFs fs p.dropLast = some FsNode.dir) →
        lookupFs fs p = some FsNode.file → create_path fs p = .ok fs)
    ∧ (∀ e, makedirs fs p = .error e → e ≠ Errno.EEXIST →
        create_path fs p = .error e) := by
  refine ⟨?_, ?_, ?_, ?_⟩
  · intro fs2 h
    cases hmd : makedirs fs p with
    | ok fsM =>
      rw [create_path_eval_ok hmd] at h
      injection h with h2
      subst h2
      obtain ⟨hlook, hpar⟩ := makedirsFuel_ok p.length fs p fsM hmd
      exact create_path_exists fsM p FsNode.dir hpar hlook
    | error e =>
      rw [create_path_eval_err hmd] at h
      by_cases he : e = Errno.EEXIST
      · rw [if_pos he] at h
        injection h with h2
        subst h2
        rw [create_path_eval_err hmd, if_pos he]
      · rw [if_neg he] at h
        exact Except.noConfusion h
  · intro hpar hv
    exact create_path_exists fs p FsNode.dir hpar hv
  · intro hpar hv
    exact create_path_exists fs p FsNode.file hpar hv
  · intro e hmd hne
    rw [create_path_eval_err hmd, if_neg hne]

/-- Witness for `create_path_spec`: a directory already exists at the
top-level path; `create_path` succeeds and a second call also succeeds. -/
theorem create_path_spec_witness :
    ((["a"] : List String).dropLast = [] ∨
      lookupFs [(["a"], FsNode.dir)] (["a"] : List String).dropLast =
        some FsNode.dir) ∧
    lookupFs [(["a"], FsNode.dir)] ["a"] = some FsNode.dir ∧
    create_path [(["a"], FsNode.dir)] ["a"] = .ok [(["a"], FsNode.dir)] :=
  ⟨Or.inl rfl, rfl,
    (create_path_spec [(["a"], FsNode.dir)] ["a"]).2.1 (Or.inl rfl) rfl⟩

/-! ## Timestamps -/

/-- A Python `datetime` value as produced by `datetime.today()`. -/
structure PyDateTime where
  year : Nat
  month : Nat
  day : Nat
  hour : Nat
  minute : Nat
  second : Nat
  micro : Nat
deriving DecidableEq, Repr

/-- The field ranges guaranteed by Python's `datetime`. -/
def PyDateTime.Valid (t : PyDateTime) : Prop :=
  1 ≤ t.year ∧ t.year ≤ 9999 ∧ 1 ≤ t.month ∧ t.month ≤ 12 ∧
    1 ≤ t.day ∧ t.day ≤ 31 ∧ t.hour ≤ 23 ∧ t.minute ≤ 59 ∧
    t.second ≤ 59 ∧ t.micro ≤ 999999

instance (t : PyDateTime) : Decidable t.Valid := by
  unfold PyDateTime.Valid
  infer_instance

/-- Decimal digit `d % 10` as the character `'0' + d % 10`. -/
def digitChar (d : Nat) : Char := Char.ofNat (48 + d % 10)

/-- `%02d` (for values below 100, as guaranteed by `PyDateTime.Valid`). -/
def pad2 (n : Nat) : List Char := [digitChar (n / 10), digitChar n]

/-- `%04d` (for values below 10000). -/
def pad4 (n : Nat) : List Char :=
  [digitChar (n / 1000), digitChar (n / 100), digitChar (n / 10), digitChar n]

/-- `%06d` (for values below 1000000). -/
def pad6 (n : Nat) : List Char :=
  [digitChar (n / 100000), digitChar (n / 10000), digitChar (n / 1000),
    digitChar (n / 100), digitChar (n / 10), digitChar n]

/-- `time_now.isoformat(' ')`: `YYYY-MM-DD HH:MM:SS[.ffffff]`, with the
microseconds part omitted when it is zero. -/
def isoformatSpace (t : PyDateTime) : List Char :=
  pad4 t.year ++ '-' :: pad2 t.month ++ '-' :: pad2 t.day ++ ' ' ::
    pad2 t.hour ++ ':' :: pad2 t.minute ++ ':' :: pad2 t.second ++
    (if t.micro = 0 then [] else '.' :: pad6 t.micro)

/-- Syntactic check that a character list is an ISO-8601 date and time
with a space separator: `YYYY-MM-DD HH:MM:SS`, optionally followed by
`.ffffff`. -/
def isIsoSpaceDatetime : List Char → Bool
  | y1 :: y2 :: y3 :: y4 :: '-' :: m1 :: m2 :: '-' :: d1 :: d2 :: ' ' ::
      h1 :: h2 :: ':' :: n1 :: n2 :: ':' :: s1 :: s2 :: rest =>
    [y1, y2, y3, y4, m1, m2, d1, d2, h1, h2, n1, n2, s1, s2].all
        Char.isDigit &&
      (match rest with
       | [] => true
       | '.' :: us => us.length == 6 && us.all Char.isDigit
       | _ => false)
  | _ => false

theorem digitChar_isDigit (d : Nat) : (digitChar d).isDigit = true := by
  unfold digitChar
  set k := d % 10 with hk
  have h : k < 10 := by
    rw [hk]
    exact Nat.mod_lt d (by omega)
  interval_cases k <;> decide

theorem isoformatSpace_parseable (t : PyDateTime) :
    isIsoSpaceDatetime (isoformatSpace t) = true := by
  unfold isoformatSpace pad4 pad2 pad6
  by_cases hm : t.micro = 0
  · rw [if_pos hm]
    simp [isIsoSpaceDatetime, digitChar_isDigit]
  · rw [if_neg hm]
    simp [isIsoSpaceDatetime, digitChar_isDigit]

/-! ## Claim C6: dump_db error propagation -/

/-- Result of one `dump_db` run: the final directory contents, the
message of the raised exception if any, and whether the rotation step was
executed. -/
structure DumpDbOut where
  files : List Entry
  err : Option String
  rotated : Bool
deriving DecidableEq, Repr

/-- The filter of dump_db's rotation step: the compiled pattern searched
in the joined path. -/
def dbMatch (location : String) (e : Entry) : Bool :=
  dbSearch (location ++ "/" ++ e.name)

/-- `dump_db(location, rotate)`:
run `pg_dump -Ft "<db>" > "<dump_file>.tar"` (the shell redirection
creates the file even when `pg_dump` fails) and raise on non-zero exit;
run `bzip2 "<dump_file>.tar"` (replaces the `.tar` file by `.tar.bz2` on
success, leaves it in place on failure) and raise on non-zero exit;
then, if `rotate`, delete all but the two most recent matching archives.
`stamp` stands for `strftime("%Y%m%d-%H%M%S", gmtime())`, `tnow` for the
modification time of the newly written file, and the two exit codes for
those of the external commands. -/
def dump_db (pre : List Entry) (location : String) (stamp : String)
    (tnow : Nat) (pgDumpExit bzipExit : Nat) (rotate : Bool) : DumpDbOut :=
  let tarName := "cb-backup-" ++ stamp ++ ".tar"
  let afterDump := pre ++ [⟨tarName, tnow⟩]
  if pgDumpExit ≠ 0 then
    ⟨afterDump, some "Failed to create database dump!", false⟩
  else if bzipExit ≠ 0 then
    ⟨afterDump, some "Failed to create database dump!", false⟩
  else
    let compressed :=
      (afterDump.filter (fun e => e.name != tarName)) ++
        [⟨tarName ++ ".bz2", tnow⟩]
    if rotate then
      ⟨afterPrune Entry.mtime (dbMatch location) 2 compressed, none, true⟩
    else ⟨compressed, none, false⟩

/-- C6: if either the `pg_dump` step or the `bzip2` step reports non-zero
exit status, `dump_db` raises `"Failed to create database dump!"`; the
partial output (the `.tar` file created by the shell redirection) is left
on disk together with everything already present — no cleanup — and the
rotation step is not reached. -/
theorem dump_db_failure_spec (pre : List Entry) (location stamp : String)
    (tnow : Nat) (pgDumpExit bzipExit : Nat) (rotate : Bool)
    (h : pgDumpExit ≠ 0 ∨ bzipExit ≠ 0) :
    dump_db pre location stamp tnow pgDumpExit bzipExit rotate =
      ⟨pre ++ [⟨"cb-backup-" ++ stamp ++ ".tar", tnow⟩],
        some "Failed to create database dump!", false⟩ := by
  by_cases h1 : pgDumpExit = 0
  · rcases h with h | h
    · exact absurd h1 h
    · simp [dump_db, h1, h]
  · simp [dump_db, h1]

/-- Witness for `dump_db_failure_spec`: `pg_dump` exits with status 1 in
an empty directory; the partial `.tar` remains, the error is raised, and
no rotation happens. -/
theorem dump_db_failure_spec_witness :
    ((1 : Nat) ≠ 0 ∨ (0 : Nat) ≠ 0) ∧
      dump_db [] "backup" "20140101-000000" 5 1 0 true =
        ⟨[⟨"cb-backup-20140101-000000.tar", 5⟩],
          some "Failed to create database dump!", false⟩ :=
  ⟨Or.inl (by decide),
    dump_db_failure_spec [] "backup" "20140101-000000" 5 1 0 true
      (Or.inl (by decide))⟩

/-! ## Claim C7: export archive metadata -/

/-- A content license: its id and the content of its legal-text file
`critiquebrainz/data/licenses/<slug>.txt`. -/
structure LicenseR where
  id : String
  text : String
deriving DecidableEq, Repr

/-- An archive: its tar entries in the order they are added, as pairs of
arcname and content. -/
abbrev Archive := List (String × String)

def lookupEntry (a : Archive) (k : String) : Option String :=
  (a.find? (fun kv => kv.1 == k)).map Prod.snd

/-- The archives produced by one `export` invocation, keyed by file name
and in production order: the base archive `cbdump.tar.bz2`, the combined
reviews archive `cbdump-reviews-all.tar.bz2`, and one
`cbdump-reviews-<slug>.tar.bz2` per license.  `t` is the single
`time_now = datetime.today()` taken at the start, `v` is
`model.__version__`, the table dumps produced by `cursor.copy_to` are
parameters, and `ccText` is the CC BY-NC-SA 3.0 legal text bundled with
the first two archives. -/
def exportArchives (residue : Char → List Char) (t : PyDateTime) (v : Nat)
    (licenses : List LicenseR)
    (userRows licenseRows reviewRows revisionRows ccText : String)
    (reviewRowsOf revisionRowsOf : String → String) :
    List (String × Archive) :=
  let ts := String.mk (isoformatSpace t)
  let seq := toString v
  ("cbdump.tar.bz2",
    [("cbdump/user", userRows), ("cbdump/license", licenseRows),
     ("COPYING", ccText), ("TIMESTAMP", ts), ("SCHEMA_SEQUENCE", seq)]) ::
  ("cbdump-reviews-all.tar.bz2",
    [("cbdump/review", reviewRows), ("cbdump/revision", revisionRows),
     ("COPYING", ccText), ("TIMESTAMP", ts), ("SCHEMA_SEQUENCE", seq)]) ::
  licenses.map (fun lic =>
    ("cbdump-reviews-" ++ String.mk (slugify residue lic.id.data) ++
        ".tar.bz2",
     [("cbdump/review", reviewRowsOf lic.id),
      ("cbdump/revision", revisionRowsOf lic.id),
      ("COPYING", lic.text), ("TIMESTAMP", ts), ("SCHEMA_SEQUENCE", seq)]))

/-- C7: every archive produced by one `export` invocation contains a
TIMESTAMP entry and a SCHEMA_SEQUENCE entry; the TIMESTAMP is the
rendering of the single `time_now` taken at the start — a parseable
space-separated ISO-8601 value — and the SCHEMA_SEQUENCE is the
configured `model.__version__`; both are identical across all archives
of the export set. -/
theorem export_archives_metadata (residue : Char → List Char)
    (t : PyDateTime) (v : Nat) (licenses : List LicenseR)
    (userRows licenseRows reviewRows revisionRows ccText : String)
    (reviewRowsOf revisionRowsOf : String → String) :
    (∀ a ∈ exportArchives residue t v licenses userRows licenseRows
        reviewRows revisionRows ccText reviewRowsOf revisionRowsOf,
      lookupEntry a.2 "TIMESTAMP" = some (String.mk (isoformatSpace t)) ∧
        lookupEntry a.2 "SCHEMA_SEQUENCE" = some (toString v)) ∧
      isIsoSpaceDatetime (isoformatSpace t) = true := by
  constructor
  · intro a ha
    rcases List.mem_cons.mp ha with rfl | ha
    · exact ⟨rfl, rfl⟩
    rcases List.mem_cons.mp ha with rfl | ha
    · exact ⟨rfl, rfl⟩
    rcases List.mem_map.mp ha with ⟨lic, _, rfl⟩
    exact ⟨rfl, rfl⟩
  · exact isoformatSpace_parseable t

/-- Witness for `export_archives_metadata`: a concrete export set with
one license; the base archive carries the expected TIMESTAMP and
SCHEMA_SEQUENCE. -/
theorem export_archives_metadata_witness :
    lookupEntry [("cbdump/user", "u"), ("cbdump/license", "l"),
        ("COPYING", "cc"),
        ("TIMESTAMP", String.mk (isoformatSpace ⟨2014, 1, 2, 3, 4, 5, 0⟩)),
        ("SCHEMA_SEQUENCE", toString (7 : Nat))] "TIMESTAMP" =
      some (String.mk (isoformatSpace ⟨2014, 1, 2, 3, 4, 5, 0⟩)) ∧
    lookupEntry [("cbdump/user", "u"), ("cbdump/license", "l"),
        ("COPYING", "cc"),
        ("TIMESTAMP", String.mk (isoformatSpace ⟨2014, 1, 2, 3, 4, 5, 0⟩)),
        ("SCHEMA_SEQUENCE", toString (7 : Nat))] "SCHEMA_SEQUENCE" =
      some (toString (7 : Nat)) :=
  (export_archives_metadata (fun _ => []) ⟨2014, 1, 2, 3, 4, 5, 0⟩ 7
      [⟨"mit", "MIT text"⟩] "u" "l" "r" "rv" "cc" (fun _ => "r1")
      (fun _ => "r2")).1
    ("cbdump.tar.bz2",
      [("cbdump/user", "u"), ("cbdump/license", "l"), ("COPYING", "cc"),
       ("TIMESTAMP", String.mk (isoformatSpace ⟨2014, 1, 2, 3, 4, 5, 0⟩)),
       ("SCHEMA_SEQUENCE", toString (7 : Nat))])
    (List.mem_cons_self _ _)

/-! ## Claim C8: dump_json produces an archive per license -/

/-- `datetime.today().strftime('%Y%m%d')`: the calendar date only. -/
def dateToken (t : PyDateTime) : List Char :=
  pad4 t.year ++ pad2 t.month ++ pad2 t.day

/-- The file name of the JSON archive for one license:
`critiquebrainz-<YYYYMMDD>-<slug>-json.tar.bz2`. -/
def dumpJsonArchiveName (t : PyDateTime) (slug : String) : String :=
  "critiquebrainz-" ++ String.mk (dateToken t) ++ "-" ++ slug ++
    "-json.tar.bz2"

/-- The JSON archive produced for one license: its file name, the review
files added under the top-level `reviews` arcname, and the license's
legal text added as `COPYING`. -/
structure JsonArchive where
  name : String
  reviewFiles : List (String × String)
  copying : String
deriving DecidableEq, Repr

/-- The nested path `<rg[0:1]>/<rg[0:2]>/<rg>.json` of one release
group's review file inside the per-license tree. -/
def rgJsonPath (rg : String) : String :=
  rg.take 1 ++ "/" ++ rg.take 2 ++ "/" ++ rg ++ ".json"

/-- `dump_json`'s archive construction: one archive per configured
license; inside it, one JSON document per release group having at least
one review under that license (`Review.list(release_group,
license_id=license.id)` — `if len(reviews) > 0`), plus the legal text.
`releaseGroups` enumerates the distinct `Review.release_group` values,
`reviewsFor rg licId` the matching reviews, and `jsonOf` the rendered
`jsonify(reviews=[...])` document. -/
def dumpJsonArchives (residue : Char → List Char) (t : PyDateTime)
    (licenses : List LicenseR) (releaseGroups : List String)
    (reviewsFor : String → String → List String)
    (jsonOf : List String → String) : List JsonArchive :=
  licenses.map (fun lic =>
    { name := dumpJsonArchiveName t (String.mk (slugify residue lic.id.data)),
      reviewFiles :=
        (releaseGroups.filter
            (fun rg => decide (0 < (reviewsFor rg lic.id).length))).map
          (fun rg => (rgJsonPath rg, jsonOf (reviewsFor rg lic.id))),
      copying := lic.text })

/-- C8: for every configured license, dump_json produces an archive for
that license containing the license's legal text as `COPYING` and a
(possibly empty) reviews tree; in particular, when zero reviews exist
under that license the archive still exists and its tree is empty. -/
theorem dump_json_license_archive (residue : Char → List Char)
    (t : PyDateTime) (licenses : List LicenseR)
    (releaseGroups : List String)
    (reviewsFor : String → String → List String)
    (jsonOf : List String → String) (lic : LicenseR)
    (hmem : lic ∈ licenses) :
    ∃ a ∈ dumpJsonArchives residue t licenses releaseGroups reviewsFor
        jsonOf,
      a.name = dumpJsonArchiveName t
          (String.mk (slugify residue lic.id.data)) ∧
        a.copying = lic.text ∧
        ((∀ rg ∈ releaseGroups, reviewsFor rg lic.id = []) →
          a.reviewFiles = []) := by
  refine ⟨_, List.mem_map_of_mem _ hmem, rfl, rfl, ?_⟩
  intro hall
  have hfil : releaseGroups.filter
      (fun rg => decide (0 < (reviewsFor rg lic.id).length)) = [] := by
    rw [List.filter_eq_nil_iff]
    intro rg hrg
    rw [hall rg hrg]
    simp
  show (releaseGroups.filter
      (fun rg => decide (0 < (reviewsFor rg lic.id).length))).map
      (fun rg => (rgJsonPath rg, jsonOf (reviewsFor rg lic.id))) = []
  rw [hfil]
  rfl

/-- Witness for `dump_json_license_archive`: one license, one release
group, no reviews at all; the license's archive exists, has the legal
text as COPYING, and its reviews tree is empty. -/
theorem dump_json_license_archive_witness :
    ∃ a ∈ dumpJsonArchives (fun _ => []) ⟨2014, 1, 2, 3, 4, 5, 0⟩
        [⟨"mit", "MIT text"⟩] ["ab"] (fun _ _ => []) (fun _ => "{}"),
      a.name = dumpJsonArchiveName ⟨2014, 1, 2, 3, 4, 5, 0⟩
          (String.mk (slugify (fun _ => [])
            (LicenseR.id ⟨"mit", "MIT text"⟩).data)) ∧
        a.copying = LicenseR.text ⟨"mit", "MIT text"⟩ ∧
        ((∀ rg ∈ ["ab"], (fun _ _ => ([] : List String)) rg
            (LicenseR.id ⟨"mit", "MIT text"⟩) = []) →
          a.reviewFiles = []) :=
  dump_json_license_archive (fun _ => []) ⟨2014, 1, 2, 3, 4, 5, 0⟩
    [⟨"mit", "MIT text"⟩] ["ab"] (fun _ _ => []) (fun _ => "{}")
    ⟨"mit", "MIT text"⟩ (List.mem_cons_self _ _)

/-! ## Claim C10: dump_json archive names encode only the date -/

/-- One file of the destination directory: name and content. -/
abbrev FileEnt := String × String

def namesOf (d : List FileEnt) : List String := d.map Prod.fst

/-- Directory-level semantics of `tarfile.open(name, "w:bz2")`:
truncate/overwrite the entry if the name exists, else append it. -/
def upsertFile (d : List FileEnt) (f : FileEnt) : List FileEnt :=
  if f.1 ∈ namesOf d then d.map (fun g => if g.1 = f.1 then f else g)
  else d ++ [f]

def writeAll (d : List FileEnt) (fs : List FileEnt) : List FileEnt :=
  fs.foldl upsertFile d

/-- The directory-level effect of one `dump_json` run: for each
configured license, write (create or overwrite) the archive named
`critiquebrainz-<YYYYMMDD>-<slug>-json.tar.bz2`; `content lic` stands
for the archive bytes written by this particular run. -/
def dumpJsonRun (residue : Char → List Char) (d : List FileEnt)
    (t : PyDateTime) (licenses : List LicenseR)
    (content : LicenseR → String) : List FileEnt :=
  writeAll d (licenses.map (fun lic =>
    (dumpJsonArchiveName t (String.mk (slugify residue lic.id.data)),
      content lic)))

theorem namesOf_upsert (d : List FileEnt) (f : FileEnt) :
    namesOf (upsertFile d f) =
      if f.1 ∈ namesOf d then namesOf d else namesOf d ++ [f.1] := by
  unfold upsertFile
  by_cases h : f.1 ∈ namesOf d
  · rw [if_pos h, if_pos h]
    unfold namesOf
    rw [List.map_map]
    apply List.map_congr_left
    intro g _
    by_cases hg1 : g.1 = f.1
    · simp [Function.comp, hg1]
    · simp [Function.comp, hg1]
  · rw [if_neg h, if_neg h]
    unfold namesOf
    rw [List.map_append]
    rfl

theorem namesOf_upsert_mem {d : List FileEnt} {x : String}
    (f : FileEnt) (h : x ∈ namesOf d) : x ∈ namesOf (upsertFile d f) := by
  rw [namesOf_upsert]
  by_cases hf : f.1 ∈ namesOf d
  · rwa [if_pos hf]
  · rw [if_neg hf]
    exact List.mem_append_left _ h

theorem namesOf_upsert_self (d : List FileEnt) (f : FileEnt) :
    f.1 ∈ namesOf (upsertFile d f) := by
  rw [namesOf_upsert]
  by_cases hf : f.1 ∈ namesOf d
  · rwa [if_pos hf]
  · rw [if_neg hf]
    exact List.mem_append_right _ (List.mem_cons_self _ _)

theorem namesOf_writeAll_mono {x : String} :
    ∀ (fs : List FileEnt) (d : List FileEnt), x ∈ namesOf d →
      x ∈ namesOf (writeAll d fs)
  | [], _, h => h
  | f :: fs, d, h =>
    namesOf_writeAll_mono fs (upsertFile d f) (namesOf_upsert_mem f h)

theorem namesOf_writeAll_mem :
    ∀ (fs : List FileEnt) (d : List FileEnt), ∀ f ∈ fs,
      f.1 ∈ namesOf (writeAll d fs) := by
  intro fs
  induction fs with
  | nil => intro d f hf; cases hf
  | cons g gs ih =>
    intro d f hf
    rcases List.mem_cons.mp hf with rfl | hf2
    · exact namesOf_writeAll_mono gs (upsertFile d f)
        (namesOf_upsert_self d f)
    · exact ih (upsertFile d g) f hf2

theorem namesOf_writeAll_eq :
    ∀ (fs : List FileEnt) (d : List FileEnt),
      (∀ f ∈ fs, f.1 ∈ namesOf d) →
      namesOf (writeAll d fs) = namesOf d := by
  intro fs
  induction fs with
  | nil => intro d _; rfl
  | cons g gs ih =>
    intro d hall
    have hg : g.1 ∈ namesOf d := hall g (List.mem_cons_self g gs)
    have hstep : namesOf (upsertFile d g) = namesOf d := by
      rw [namesOf_upsert, if_pos hg]
    have hrest : ∀ f ∈ gs, f.1 ∈ namesOf (upsertFile d g) := by
      intro f hf
      rw [hstep]
      exact hall f (List.mem_cons_of_mem g hf)
    calc namesOf (writeAll (upsertFile d g) gs)
        = namesOf (upsertFile d g) := ih (upsertFile d g) hrest
      _ = namesOf d := hstep

/-- C10: the JSON-archive file name encodes only the calendar date
(`%Y%m%d`), not the time of day; hence two `dump_json` invocations on the
same day against the same destination directory with the same license
list produce identical archive paths, and the second invocation
overwrites the first's archives rather than adding new files: the set of
file names in the directory is unchanged by the second run. -/
theorem dump_json_same_day_overwrites (residue : Char → List Char)
    (d : List FileEnt) (t1 t2 : PyDateTime) (licenses : List LicenseR)
    (c1 c2 : LicenseR → String)
    (hy : t1.year = t2.year) (hm : t1.month = t2.month)
    (hd : t1.day = t2.day) :
    (∀ slug : String,
      dumpJsonArchiveName t1 slug = dumpJsonArchiveName t2 slug) ∧
    namesOf (dumpJsonRun residue (dumpJsonRun residue d t1 licenses c1)
        t2 licenses c2) =
      namesOf (dumpJsonRun residue d t1 licenses c1) := by
  have hname : ∀ slug : String,
      dumpJsonArchiveName t1 slug = dumpJsonArchiveName t2 slug := by
    intro slug
    unfold dumpJsonArchiveName dateToken
    rw [hy, hm, hd]
  refine ⟨hname, ?_⟩
  apply namesOf_writeAll_eq
  intro f hf
  rcases List.mem_map.mp hf with ⟨lic, hlic, rfl⟩
  show dumpJsonArchiveName t2 (String.mk (slugify residue lic.id.data)) ∈ _
  rw [← hname]
  exact namesOf_writeAll_mem _ d
    (dumpJsonArchiveName t1 (String.mk (slugify residue lic.id.data)),
      c1 lic)
    (List.mem_map_of_mem _ hlic)

/-- Witness for `dump_json_same_day_overwrites`: two runs on the same
calendar day (different times of day) over an empty directory; the
second run adds no file names. -/
theorem dump_json_same_day_overwrites_witness :
    namesOf (dumpJsonRun (fun _ => []) (dumpJsonRun (fun _ => []) []
        ⟨2014, 1, 2, 3, 4, 5, 6⟩ [⟨"mit", "MIT"⟩] (fun _ => "A"))
        ⟨2014, 1, 2, 9, 9, 9, 9⟩ [⟨"mit", "MIT"⟩] (fun _ => "B")) =
      namesOf (dumpJsonRun (fun _ => []) []
        ⟨2014, 1, 2, 3, 4, 5, 6⟩ [⟨"mit", "MIT"⟩] (fun _ => "A")) :=
  (dump_json_same_day_overwrites (fun _ => []) [] ⟨2014, 1, 2, 3, 4, 5, 6⟩
    ⟨2014, 1, 2, 9, 9, 9, 9⟩ [⟨"mit", "MIT"⟩] (fun _ => "A")
    (fun _ => "B") rfl rfl rfl).2

/-- Witness for `slugify_output_charset`: the underscore of
`slugify("_") = "_"` is within the amended character set. -/
theorem slugify_output_charset_witness :
    '_' ∈ slugify (fun _ => []) ['_'] ∧
      ('_' = '-' ∨ '_' = '_' ∨ (97 ≤ '_'.toNat ∧ '_'.toNat ≤ 122) ∨
        (48 ≤ '_'.toNat ∧ '_'.toNat ≤ 57)) :=
  ⟨by decide, slugify_output_charset (fun _ => []) ['_'] '_' (by decide)⟩

/-- Witness for `slugify_deterministic_idempotent` at a concrete input:
`slugify("A b") = "a-b"` is a fixed point of `slugify`. -/
theorem slugify_idempotent_witness :
    slugify (fun _ => []) (slugify (fun _ => []) ['A', ' ', 'b']) =
      slugify (fun _ => []) ['A', ' ', 'b'] :=
  (slugify_deterministic_idempotent (fun _ => []) ['A', ' ', 'b']).1
